import Mathlib

/-!
Verification development for the `dsp-utils` Keycloak client-management
scripts (`src/keycloak/keycloak_admin.py` and `src/keycloak/manage_clients.py`).

The Python code is shallowly embedded: Python dicts become association
lists over `String` keys (Python dicts preserve insertion order, assignment
updates the value in place, `pop` removes the entry), the remote directory
calls (`update_client`, `update_client_mapper`, `add_mapper_to_client`,
`set_user_password`) are reified as the payloads the code would send, and
per-call failures of the directory are modelled by a failure predicate on
the internal id the call addresses.  Strings are treated with ASCII
semantics (the scripts only ever handle ASCII configuration keys and
usernames); the server-assigned id of a freshly created mapper appears as
an explicit `fresh_id` argument.
-/

/-! ## Python dict model

A Python dict with string keys, as an insertion-ordered association list.
`dictSet` is `d[k] = v` (replace in place, else append), `dictGet` is
`d.get(k)`, `dictPop` is `d.pop(k, None)`. -/

/-- Python `d.get(k)`: value of the first entry with key `k`. -/
def dictGet {α : Type} (k : String) (m : List (String × α)) : Option α :=
  (m.find? (fun p => p.1 == k)).map Prod.snd

/-- Python `d[k] = v`: replace the value at an existing key in place,
otherwise append the new entry at the end. -/
def dictSet {α : Type} (k : String) (v : α) : List (String × α) → List (String × α)
  | [] => [(k, v)]
  | p :: rest => if p.1 == k then (k, v) :: rest else p :: dictSet k v rest

/-- Python `d.pop(k, None)`: drop the entry with key `k`, if present. -/
def dictPop {α : Type} (k : String) (m : List (String × α)) : List (String × α) :=
  m.filter (fun p => !(p.1 == k))

/-! ## Protocol mappers and the audience reconciler -/

/-- A Keycloak protocol mapper as the scripts see it: id, name, protocol,
mapper type (`protocolMapper`) and a string-to-string config dict. -/
structure Mapper where
  id : String
  name : String
  protocol : String
  protocolMapper : String
  config : List (String × String)
deriving DecidableEq, Repr

/-- The check `m.get('protocolMapper') == 'oidc-audience-mapper'` used to
locate a client's audience mapper. -/
def isAudienceMapper (m : Mapper) : Bool :=
  m.protocolMapper == "oidc-audience-mapper"

/-- The in-place config mutation of the update branch of
`update_client_audience`: pop the legacy `included.client.audience` key,
then set `included.custom.audience` and force the three claim flags. -/
def updatedConfig (new_audience : String) (config : List (String × String)) :
    List (String × String) :=
  dictSet "introspection.token.claim" "true"
    (dictSet "id.token.claim" "true"
      (dictSet "access.token.claim" "true"
        (dictSet "included.custom.audience" new_audience
          (dictPop "included.client.audience" config))))

/-- The `mapper_payload` built by the create branch of
`update_client_audience`, with the server-assigned id made explicit. -/
def newAudienceMapper (mapper_name new_audience fresh_id : String) : Mapper :=
  { id := fresh_id
    name := mapper_name
    protocol := "openid-connect"
    protocolMapper := "oidc-audience-mapper"
    config := [("included.custom.audience", new_audience),
               ("access.token.claim", "true"),
               ("id.token.claim", "true"),
               ("introspection.token.claim", "true")] }

namespace keycloak_admin

/-- Effect of `keycloak_admin.update_client_audience` on the resolved
client's mapper list: find the first mapper of audience type; if found,
replace the mapper with that id by a copy (same id and name) whose config
went through `updatedConfig`; otherwise append the freshly created mapper. -/
def update_client_audience (mappers : List Mapper)
    (new_audience mapper_name fresh_id : String) : List Mapper :=
  match mappers.find? isAudienceMapper with
  | some audience_mapper =>
      mappers.map (fun m =>
        if m.id == audience_mapper.id then
          { audience_mapper with config := updatedConfig new_audience audience_mapper.config }
        else m)
  | none => mappers ++ [newAudienceMapper mapper_name new_audience fresh_id]

end keycloak_admin

namespace manage_clients

/-- Effect of `manage_clients.update_client_audience` on the resolved
client's mapper list; the Python function body is character-for-character
the one in `keycloak_admin.py`. -/
def update_client_audience (mappers : List Mapper)
    (new_audience mapper_name fresh_id : String) : List Mapper :=
  match mappers.find? isAudienceMapper with
  | some audience_mapper =>
      mappers.map (fun m =>
        if m.id == audience_mapper.id then
          { audience_mapper with config := updatedConfig new_audience audience_mapper.config }
        else m)
  | none => mappers ++ [newAudienceMapper mapper_name new_audience fresh_id]

end manage_clients

/-! ## Clients and the redirect URI reconciler -/

/-- A Keycloak client as the redirect-URI commands see it: internal id,
human-facing `clientId` and the redirect URI allow-list. -/
structure Client where
  id : String
  clientId : String
  redirectUris : List String
deriving DecidableEq, Repr

/-- Payload of the `update_client` call issued by
`update_client_redirect_uris`: resolve the client by `clientId` (first
match), then compute the new URI list per mode.  `none` models returning
`False` (client not found or invalid mode).  Python's `list(set(...))` in
`add` mode has unspecified order; it is modelled by `List.dedup`, and the
theorems about it use only order-insensitive consequences. -/
def update_client_redirect_uris (clients : List Client) (client_id : String)
    (redirect_uris : List String) (mode : String) : Option (String × List String) :=
  match clients.find? (fun c => c.clientId == client_id) with
  | none => none
  | some client =>
    if mode == "replace" then some (client.id, redirect_uris)
    else if mode == "add" then some (client.id, (client.redirectUris ++ redirect_uris).dedup)
    else if mode == "remove" then
      some (client.id, client.redirectUris.filter (fun uri => !redirect_uris.contains uri))
    else none

/-- Whether one target of `batch_update_redirect_uris` succeeds: the client
resolves with a valid mode and the directory accepts the update (`fails`
gives the directory's answer per internal id). -/
def redirectTargetOk (clients : List Client) (fails : String → Bool)
    (redirect_uris : List String) (mode : String) (client_id : String) : Bool :=
  match update_client_redirect_uris clients client_id redirect_uris mode with
  | some (internal_id, _) => !fails internal_id
  | none => false

/-- The success/failure tally of `batch_update_redirect_uris`: one attempt
per client id, in input order, counting outcomes. -/
def batch_update_redirect_uris (clients : List Client) (fails : String → Bool)
    (client_ids : List String) (redirect_uris : List String) (mode : String) : Nat × Nat :=
  client_ids.foldl (fun counts client_id =>
    if redirectTargetOk clients fails redirect_uris mode client_id
    then (counts.1 + 1, counts.2) else (counts.1, counts.2 + 1)) (0, 0)

/-! ## Substring search and find-and-replace over redirect URIs -/

/-- Whether `p` is a leading run of `s` (character lists). -/
def startsWithList : List Char → List Char → Bool
  | [], _ => true
  | _ :: _, [] => false
  | p :: ps, c :: cs => p == c && startsWithList ps cs

/-- Python's `pat in s` on character lists: `pat` occurs contiguously in `s`. -/
def containsSub (pat : List Char) : List Char → Bool
  | [] => pat.isEmpty
  | c :: cs => startsWithList pat (c :: cs) || containsSub pat cs

/-- Python's `old_pattern in uri` on strings. -/
def pyIn (pat s : String) : Bool := containsSub pat.data s.data

/-- The list comprehension
`[new_uri if old_pattern in uri else uri for uri in old_uris]` of
`find_and_replace_redirect_uri`. -/
def replaceMatchingUris (old_pattern new_uri : String) (uris : List String) : List String :=
  uris.map (fun uri => if pyIn old_pattern uri then new_uri else uri)

/-- Python `str.strip()` restricted to ASCII whitespace. -/
def pyStrip (s : String) : String :=
  String.mk (((s.data.dropWhile Char.isWhitespace).reverse.dropWhile Char.isWhitespace).reverse)

/-- Python `str.lower()` (ASCII). -/
def pyLowerStr (s : String) : String := String.mk (s.data.map Char.toLower)

/-- The update loop of `find_and_replace_redirect_uri`: one
`update_client` call per matching client, in order, each recorded as
(internal id, new URI list, directory accepted).  A failure recorded for
one client never stops the recursion. -/
def executeReplaceUpdates (old_pattern new_uri : String) (fails : String → Bool) :
    List Client → List (String × List String × Bool)
  | [] => []
  | client :: rest =>
    (client.id, replaceMatchingUris old_pattern new_uri client.redirectUris, !fails client.id)
      :: executeReplaceUpdates old_pattern new_uri fails rest

/-- Effect of `find_and_replace_redirect_uri`: the sequence of
`update_client` calls it issues.  No matching client, dry-run, or a
confirmation answer other than (stripped, lowered) `"yes"` issues none;
the single confirmation covers the whole batch. -/
def find_and_replace_redirect_uri (clients : List Client) (old_pattern new_uri : String)
    (dry_run : Bool) (answer : String) (fails : String → Bool) :
    List (String × List String × Bool) :=
  let matching := clients.filter (fun c => c.redirectUris.any (fun uri => pyIn old_pattern uri))
  if matching.isEmpty then []
  else if dry_run then []
  else if pyLowerStr (pyStrip answer) == "yes" then
    executeReplaceUpdates old_pattern new_uri fails matching
  else []

/-! ## Password resets -/

/-- The dict comprehension
`{u.get('username'): u.get('id') for u in all_users}` followed by lookup:
with duplicate usernames the last entry wins, as in a Python dict. -/
def userMapFind (users : List (String × String)) (username : String) : Option String :=
  (users.reverse.find? (fun u => u.1 == username)).map Prod.snd

/-- Whether one target of `reset_user_passwords` succeeds: the username is
in the user map and `set_user_password` on that user id does not fail. -/
def passwordTargetOk (users : List (String × String)) (pwFails : String → Bool)
    (username : String) : Bool :=
  match userMapFind users username with
  | some user_id => !pwFails user_id
  | none => false

/-- The success/failure tally of `reset_user_passwords`: one attempt per
username, in input order. -/
def reset_user_passwords (users : List (String × String)) (pwFails : String → Bool)
    (usernames : List String) : Nat × Nat :=
  usernames.foldl (fun counts username =>
    if passwordTargetOk users pwFails username
    then (counts.1 + 1, counts.2) else (counts.1, counts.2 + 1)) (0, 0)

/-! ## User attribute merge -/

/-- A value passed to `set_user_attributes_from_username`: either a scalar
string or already a sequence (`isinstance(value, list)`). -/
inductive AttrValue where
  | str (s : String)
  | vals (l : List String)
deriving DecidableEq, Repr

/-- Python `[value] if not isinstance(value, list) else value`. -/
def wrapValue : AttrValue → List String
  | .str s => [s]
  | .vals l => l

/-- The attribute map written back by `set_user_attributes_from_username`
(non-dry-run): start from the user's current attributes and assign each
given key its wrapped value, preserving all other keys. -/
def set_user_attributes_from_username (current_attributes : List (String × List String))
    (attributes : List (String × AttrValue)) : List (String × List String) :=
  attributes.foldl (fun cur kv => dictSet kv.1 (wrapValue kv.2) cur) current_attributes

/-! ## Username pattern parser

Embedding of
`re.match(r'^([\w-]+)-([A-Z]{2,3})-([A-Z]{2,})$', username, re.IGNORECASE)`
as the backtracking search the regex engine performs: group 1 is greedy
over word characters and hyphens, backtracking one character at a time;
after the literal hyphen, group 2 tries three letters before two; group 3
runs to the end of the string.  `\w` is modelled with ASCII semantics
(letters, digits, underscore), matching every username the scripts treat. -/

/-- A character matched by `\w` (ASCII): letter, digit or underscore. -/
def wordChar (c : Char) : Bool := c.isAlphanum || c == '_'

/-- A character the first capture group `[\w-]` accepts. -/
def g1Char (c : Char) : Bool := wordChar c || c == '-'

/-- Matcher for the tail `([A-Za-z]{2,3})-([A-Za-z]{2,})$` of the pattern,
greedy on the first group: three letters are tried before two. -/
def matchTail : List Char → Option (List Char × List Char)
  | a :: b :: c :: d :: rest =>
    if a.isAlpha && b.isAlpha && c.isAlpha && d == '-' &&
        rest.all Char.isAlpha && decide (2 ≤ rest.length) then
      some ([a, b, c], rest)
    else if a.isAlpha && b.isAlpha && c == '-' &&
        (d :: rest).all Char.isAlpha && decide (2 ≤ (d :: rest).length) then
      some ([a, b], d :: rest)
    else none
  | _ => none

/-- Backtracking search for `([\w-]+)-` followed by `matchTail`: group 1
(accumulated reversed in `acc`) extends greedily; on failure the current
character is tried as the literal separator hyphen. -/
def group1Search (acc : List Char) : List Char → Option (List Char × List Char × List Char)
  | [] => none
  | c :: rest =>
    if g1Char c then
      match group1Search (c :: acc) rest with
      | some result => some result
      | none =>
        if c == '-' && !acc.isEmpty then
          match matchTail rest with
          | some (g2, g3) => some (acc.reverse, g2, g3)
          | none => none
        else none
    else none

/-- The fixed classification normalization table. -/
def classification_map : List (String × String) :=
  [("secret", "Secret"), ("top-secret", "Top Secret"), ("classified", "Classified"),
   ("unclassified", "Unclassified"), ("confidential", "Confidential")]

/-- Python `str.title()` (ASCII): a letter is upper-cased after a
non-letter and lower-cased after a letter. -/
def pyTitleChars : Bool → List Char → List Char
  | _, [] => []
  | prevAlpha, c :: rest =>
    (if c.isAlpha then (if prevAlpha then c.toLower else c.toUpper) else c)
      :: pyTitleChars c.isAlpha rest

/-- Python
`classification_map.get(raw.lower(), raw.replace('-', ' ').title())`. -/
def normalizeClassification (raw : List Char) : String :=
  match dictGet (String.mk (raw.map Char.toLower)) classification_map with
  | some v => v
  | none => String.mk (pyTitleChars false (raw.map (fun c => if c == '-' then ' ' else c)))

/-- The attribute record `parse_username_attributes` returns on a match. -/
structure UserAttributes where
  classification : String
  nationality : String
  needToKnow : String
deriving DecidableEq, Repr

/-- `parse_username_attributes`: run the regex; on a match, normalize the
classification and upper-case the nationality and need-to-know codes. -/
def parse_username_attributes (username : String) : Option UserAttributes :=
  match group1Search [] username.data with
  | none => none
  | some (g1, g2, g3) =>
    some { classification := normalizeClassification g1
           nationality := String.mk (g2.map Char.toUpper)
           needToKnow := String.mk (g3.map Char.toUpper) }

/-! ## Lemmas about the dict model -/

theorem dictGet_dictSet_self {α : Type} (k : String) (v : α) (m : List (String × α)) :
    dictGet k (dictSet k v m) = some v := by
  induction m with
  | nil => simp [dictGet, dictSet, List.find?]
  | cons p rest ih =>
    by_cases hp : p.1 == k
    · simp [dictSet, hp, dictGet, List.find?]
    · simp only [dictSet, hp, Bool.false_eq_true, if_false]
      simpa [dictGet, List.find?_cons_of_neg, hp] using ih

theorem dictGet_dictSet_ne {α : Type} {k k' : String} (h : k ≠ k') (v : α)
    (m : List (String × α)) : dictGet k (dictSet k' v m) = dictGet k m := by
  induction m with
  | nil =>
    have : (k' == k) = false := by simpa [beq_iff_eq] using h.symm
    simp [dictGet, dictSet, List.find?, this]
  | cons p rest ih =>
    by_cases hp : p.1 == k'
    · have hpk : (p.1 == k) = false := by
        have : p.1 = k' := by simpa [beq_iff_eq] using hp
        simp [beq_iff_eq, this, h.symm]
      have hk'k : (k' == k) = false := by simpa [beq_iff_eq] using h.symm
      simp [dictSet, hp, dictGet, List.find?_cons_of_neg, hpk, hk'k]
    · simp only [dictSet, hp, Bool.false_eq_true, if_false]
      by_cases hq : p.1 == k
      · simp [dictGet, List.find?_cons_of_pos, hq]
      · simpa [dictGet, List.find?_cons_of_neg, hq] using ih

theorem dictSet_eq_self {α : Type} {k : String} {v : α} {m : List (String × α)}
    (h : dictGet k m = some v) : dictSet k v m = m := by
  induction m with
  | nil => simp [dictGet, List.find?] at h
  | cons p rest ih =>
    by_cases hp : p.1 == k
    · have hk : p.1 = k := by simpa [beq_iff_eq] using hp
      have hv : p.2 = v := by
        simpa [dictGet, List.find?_cons_of_pos, hp] using h
      simp [dictSet, hp, ← hk, ← hv]
    · have h' : dictGet k rest = some v := by
        simpa [dictGet, List.find?_cons_of_neg, hp] using h
      simp [dictSet, hp, ih h']

theorem dictGet_dictPop_self {α : Type} (k : String) (m : List (String × α)) :
    dictGet k (dictPop k m) = none := by
  have : (dictPop k m).find? (fun p => p.1 == k) = none := by
    rw [List.find?_eq_none]
    intro p hp
    have := (List.mem_filter.mp hp).2
    simpa using this
  simp [dictGet, this]

theorem dictGet_dictPop_ne {α : Type} {k k' : String} (h : k ≠ k') (m : List (String × α)) :
    dictGet k (dictPop k' m) = dictGet k m := by
  induction m with
  | nil => simp [dictPop]
  | cons p rest ih =>
    by_cases hp : p.1 == k'
    · have hpk : (p.1 == k) = false := by
        have : p.1 = k' := by simpa [beq_iff_eq] using hp
        simp [beq_iff_eq, this, h.symm]
      simpa [dictPop, hp, dictGet, List.find?_cons_of_neg, hpk] using ih
    · by_cases hq : p.1 == k
      · simp [dictPop, hp, dictGet, List.find?_cons_of_pos, hq]
      · simpa [dictPop, hp, dictGet, List.find?_cons_of_neg, hq] using ih

theorem dictPop_eq_self {α : Type} {k : String} {m : List (String × α)}
    (h : dictGet k m = none) : dictPop k m = m := by
  rw [dictPop, List.filter_eq_self]
  intro p hp
  by_contra hcon
  have hpk : (p.1 == k) = true := by
    cases hb : (p.1 == k) with
    | true => rfl
    | false => exact absurd (by simp [hb]) hcon
  have : m.find? (fun q => q.1 == k) = none := by
    cases hf : m.find? (fun q => q.1 == k) with
    | none => rfl
    | some q => simp [dictGet, hf] at h
  have := (List.find?_eq_none.mp this) p hp
  simp [hpk] at this

/-! ## Properties of the reconciled audience config -/

theorem updatedConfig_legacy (a : String) (c : List (String × String)) :
    dictGet "included.client.audience" (updatedConfig a c) = none := by
  unfold updatedConfig
  rw [dictGet_dictSet_ne (by decide), dictGet_dictSet_ne (by decide),
    dictGet_dictSet_ne (by decide), dictGet_dictSet_ne (by decide),
    dictGet_dictPop_self]

theorem updatedConfig_custom (a : String) (c : List (String × String)) :
    dictGet "included.custom.audience" (updatedConfig a c) = some a := by
  unfold updatedConfig
  rw [dictGet_dictSet_ne (by decide), dictGet_dictSet_ne (by decide),
    dictGet_dictSet_ne (by decide), dictGet_dictSet_self]

theorem updatedConfig_access (a : String) (c : List (String × String)) :
    dictGet "access.token.claim" (updatedConfig a c) = some "true" := by
  unfold updatedConfig
  rw [dictGet_dictSet_ne (by decide), dictGet_dictSet_ne (by decide), dictGet_dictSet_self]

theorem updatedConfig_idToken (a : String) (c : List (String × String)) :
    dictGet "id.token.claim" (updatedConfig a c) = some "true" := by
  unfold updatedConfig
  rw [dictGet_dictSet_ne (by decide), dictGet_dictSet_self]

theorem updatedConfig_introspection (a : String) (c : List (String × String)) :
    dictGet "introspection.token.claim" (updatedConfig a c) = some "true" := by
  unfold updatedConfig
  rw [dictGet_dictSet_self]

theorem updatedConfig_idem (a : String) (c : List (String × String)) :
    updatedConfig a (updatedConfig a c) = updatedConfig a c := by
  conv_lhs => rw [updatedConfig]
  rw [dictPop_eq_self (updatedConfig_legacy a c),
    dictSet_eq_self (updatedConfig_custom a c),
    dictSet_eq_self (updatedConfig_access a c),
    dictSet_eq_self (updatedConfig_idToken a c),
    dictSet_eq_self (updatedConfig_introspection a c)]

theorem updatedConfig_newMapper (name a fid : String) :
    updatedConfig a (newAudienceMapper name a fid).config = (newAudienceMapper name a fid).config :=
  rfl

/-! ## Decomposition lemmas for `List.find?` -/

theorem find_some_decomp {α : Type} {p : α → Bool} {l : List α} {a : α}
    (h : l.find? p = some a) :
    ∃ pre post, l = pre ++ a :: post ∧ (∀ x ∈ pre, p x = false) ∧ p a = true := by
  induction l with
  | nil => simp [List.find?] at h
  | cons x xs ih =>
    cases hx : p x with
    | true =>
      rw [List.find?_cons_of_pos _ hx] at h
      obtain rfl : x = a := by simpa using h
      exact ⟨[], xs, by simp, by simp, hx⟩
    | false =>
      rw [List.find?_cons_of_neg _ (by simp [hx])] at h
      obtain ⟨pre, post, hl, hpre, ha⟩ := ih h
      exact ⟨x :: pre, post, by simp [hl], by
        intro y hy
        rcases List.mem_cons.mp hy with rfl | hy
        · exact hx
        · exact hpre y hy, ha⟩

theorem find_append_cons {α : Type} (p : α → Bool) (pre : List α) (a : α) (post : List α)
    (hpre : ∀ x ∈ pre, p x = false) (ha : p a = true) :
    (pre ++ a :: post).find? p = some a := by
  induction pre with
  | nil => simpa using List.find?_cons_of_pos _ ha
  | cons x xs ih =>
    have hx : p x = false := hpre x (List.mem_cons_self x xs)
    rw [List.cons_append, List.find?_cons_of_neg _ (by simp [hx])]
    exact ih (fun y hy => hpre y (List.mem_cons_of_mem x hy))

/-! ## The update branch of the audience reconciler, decomposed -/

theorem update_client_audience_found (pre : List Mapper) (am : Mapper) (post : List Mapper)
    (aud name fid : String)
    (hpre : ∀ m ∈ pre, isAudienceMapper m = false)
    (ham : isAudienceMapper am = true)
    (hnodup : ((pre ++ am :: post).map Mapper.id).Nodup) :
    keycloak_admin.update_client_audience (pre ++ am :: post) aud name fid =
      pre ++ { am with config := updatedConfig aud am.config } :: post := by
  have hfind : (pre ++ am :: post).find? isAudienceMapper = some am :=
    find_append_cons _ pre am post hpre ham
  have hids : (pre.map Mapper.id ++ am.id :: post.map Mapper.id).Nodup := by
    simpa using hnodup
  have hdisj := (List.nodup_append.mp hids).2.2
  have hpreid : ∀ m ∈ pre, (m.id == am.id) = false := by
    intro m hm
    have : m.id ≠ am.id := fun he =>
      hdisj (List.mem_map_of_mem Mapper.id hm) (he ▸ List.mem_cons_self _ _)
    simp [this]
  have hpostid : ∀ m ∈ post, (m.id == am.id) = false := by
    have hcons := (List.nodup_append.mp hids).2.1
    intro m hm
    have : am.id ≠ m.id := fun he =>
      (List.nodup_cons.mp hcons).1 (he ▸ List.mem_map_of_mem Mapper.id hm)
    simp [Ne.symm this]
  unfold keycloak_admin.update_client_audience
  rw [hfind]
  dsimp only
  rw [List.map_append, List.map_cons]
  congr 1
  · calc pre.map (fun m => if m.id == am.id then
          { am with config := updatedConfig aud am.config } else m)
        = pre.map (fun m => m) := List.map_congr_left (fun m hm => by simp [hpreid m hm])
      _ = pre := List.map_id' pre
  · congr 1
    · simp
    · calc post.map (fun m => if m.id == am.id then
            { am with config := updatedConfig aud am.config } else m)
          = post.map (fun m => m) := List.map_congr_left (fun m hm => by simp [hpostid m hm])
        _ = post := List.map_id' post

/-- Claim C1: for a client whose mapper list contains an audience-type
mapper, `update_client_audience` rewrites the first such mapper in place —
legacy `included.client.audience` key removed, `included.custom.audience`
set to the desired audience, the three claim-inclusion flags forced to
`"true"`, id and name unchanged; for a client with none, it appends a new
mapper carrying the caller-supplied name, the custom audience key and the
same three flags. -/
theorem claim_C1_audience_reconciler :
    (∀ (pre : List Mapper) (am : Mapper) (post : List Mapper) (aud name fid : String),
      (∀ m ∈ pre, isAudienceMapper m = false) → isAudienceMapper am = true →
      ((pre ++ am :: post).map Mapper.id).Nodup →
      keycloak_admin.update_client_audience (pre ++ am :: post) aud name fid =
        pre ++ { am with config := updatedConfig aud am.config } :: post ∧
      ({ am with config := updatedConfig aud am.config } : Mapper).id = am.id ∧
      ({ am with config := updatedConfig aud am.config } : Mapper).name = am.name ∧
      dictGet "included.client.audience" (updatedConfig aud am.config) = none ∧
      dictGet "included.custom.audience" (updatedConfig aud am.config) = some aud ∧
      dictGet "access.token.claim" (updatedConfig aud am.config) = some "true" ∧
      dictGet "id.token.claim" (updatedConfig aud am.config) = some "true" ∧
      dictGet "introspection.token.claim" (updatedConfig aud am.config) = some "true") ∧
    (∀ (mappers : List Mapper) (aud name fid : String),
      (∀ m ∈ mappers, isAudienceMapper m = false) →
      keycloak_admin.update_client_audience mappers aud name fid =
        mappers ++ [newAudienceMapper name aud fid] ∧
      (newAudienceMapper name aud fid).name = name ∧
      dictGet "included.custom.audience" (newAudienceMapper name aud fid).config = some aud ∧
      dictGet "included.client.audience" (newAudienceMapper name aud fid).config = none ∧
      dictGet "access.token.claim" (newAudienceMapper name aud fid).config = some "true" ∧
      dictGet "id.token.claim" (newAudienceMapper name aud fid).config = some "true" ∧
      dictGet "introspection.token.claim" (newAudienceMapper name aud fid).config = some "true") := by
  constructor
  · intro pre am post aud name fid hpre ham hnodup
    exact ⟨update_client_audience_found pre am post aud name fid hpre ham hnodup,
      rfl, rfl, updatedConfig_legacy aud am.config, updatedConfig_custom aud am.config,
      updatedConfig_access aud am.config, updatedConfig_idToken aud am.config,
      updatedConfig_introspection aud am.config⟩
  · intro mappers aud name fid hall
    have hfind : mappers.find? isAudienceMapper = none := by
      rw [List.find?_eq_none]
      intro m hm
      simp [hall m hm]
    refine ⟨?_, rfl, rfl, rfl, rfl, rfl, rfl⟩
    unfold keycloak_admin.update_client_audience
    rw [hfind]

/-- Claim C9, counterexample to the claimed disagreement: the embedded
`update_client_audience` of `keycloak_admin.py` and of `manage_clients.py`
are one and the same function — the two Python bodies are identical, both
migrating to the custom audience key and clearing the legacy key. -/
theorem claim_C9_counterexample :
    keycloak_admin.update_client_audience = manage_clients.update_client_audience := rfl

/-- Claim C9 as amended: the two embedded `update_client_audience`
functions are extensionally equal — on every mapper state and desired
audience they issue the same mapper configuration. -/
theorem claim_C9_same_policy :
    ∀ (mappers : List Mapper) (aud name fid : String),
      keycloak_admin.update_client_audience mappers aud name fid =
        manage_clients.update_client_audience mappers aud name fid :=
  fun _ _ _ _ => rfl

/-- Claim C5 as amended: the audience reconciler is idempotent (same final
mapper list applying twice as once, given distinct mapper ids and a fresh
id for a created mapper), and for a client starting with at most one
audience-type mapper the reconciled state has exactly one audience-type
mapper, with the custom audience key set, the legacy key absent and the
three claim flags `"true"`. -/
theorem claim_C5_idempotent (mappers : List Mapper) (aud name fid : String)
    (hnodup : (mappers.map Mapper.id).Nodup)
    (hfresh : fid ∉ mappers.map Mapper.id) :
    keycloak_admin.update_client_audience
        (keycloak_admin.update_client_audience mappers aud name fid) aud name fid =
      keycloak_admin.update_client_audience mappers aud name fid ∧
    ((mappers.filter isAudienceMapper).length ≤ 1 →
      ∃ m, (keycloak_admin.update_client_audience mappers aud name fid).filter
          isAudienceMapper = [m] ∧
        dictGet "included.custom.audience" m.config = some aud ∧
        dictGet "included.client.audience" m.config = none ∧
        dictGet "access.token.claim" m.config = some "true" ∧
        dictGet "id.token.claim" m.config = some "true" ∧
        dictGet "introspection.token.claim" m.config = some "true") := by
  cases hfind : mappers.find? isAudienceMapper with
  | some am =>
    obtain ⟨pre, post, hms, hpre, ham⟩ := find_some_decomp hfind
    subst hms
    have ham' : isAudienceMapper { am with config := updatedConfig aud am.config } = true := ham
    have hnodup' :
        ((pre ++ { am with config := updatedConfig aud am.config } :: post).map
          Mapper.id).Nodup := by
      simpa using hnodup
    have h1 := update_client_audience_found pre am post aud name fid hpre ham hnodup
    have h2 := update_client_audience_found pre { am with config := updatedConfig aud am.config }
      post aud name fid hpre ham' hnodup'
    constructor
    · rw [h1, h2]
      simp [updatedConfig_idem]
    · intro hle
      have hprefil : pre.filter isAudienceMapper = [] := by
        rw [List.filter_eq_nil_iff]
        intro m hm
        simp [hpre m hm]
      have hpostfil : post.filter isAudienceMapper = [] := by
        rw [List.filter_append, hprefil, List.filter_cons_of_pos ham] at hle
        simp only [List.nil_append, List.length_cons] at hle
        exact List.length_eq_zero.mp (by omega)
      rw [h1, List.filter_append, hprefil, List.filter_cons_of_pos ham', hpostfil]
      exact ⟨{ am with config := updatedConfig aud am.config }, rfl,
        updatedConfig_custom aud am.config, updatedConfig_legacy aud am.config,
        updatedConfig_access aud am.config, updatedConfig_idToken aud am.config,
        updatedConfig_introspection aud am.config⟩
  | none =>
    have hall : ∀ m ∈ mappers, isAudienceMapper m = false := by
      intro m hm
      have := List.find?_eq_none.mp hfind m hm
      simpa using this
    have h1 : keycloak_admin.update_client_audience mappers aud name fid =
        mappers ++ [newAudienceMapper name aud fid] := by
      unfold keycloak_admin.update_client_audience
      rw [hfind]
    have hnodup2 :
        ((mappers ++ newAudienceMapper name aud fid :: []).map Mapper.id).Nodup := by
      rw [List.map_append, List.nodup_append]
      refine ⟨hnodup, by simp, ?_⟩
      intro x hx hx2
      simp only [List.map_cons, List.map_nil, List.mem_singleton] at hx2
      have hxf : x = fid := hx2
      exact hfresh (hxf ▸ hx)
    have h2 := update_client_audience_found mappers (newAudienceMapper name aud fid) []
      aud name fid hall rfl hnodup2
    constructor
    · rw [h1]
      have : mappers ++ [newAudienceMapper name aud fid] =
          mappers ++ newAudienceMapper name aud fid :: [] := rfl
      rw [this, h2, updatedConfig_newMapper]
    · intro _
      rw [h1, List.filter_append]
      have hfil : mappers.filter isAudienceMapper = [] := by
        rw [List.filter_eq_nil_iff]
        intro m hm
        simp [hall m hm]
      rw [hfil]
      exact ⟨newAudienceMapper name aud fid, rfl, rfl, rfl, rfl, rfl, rfl⟩

/-- Claim C5, counterexample to the claim as stated: a client that starts
with two audience-type mappers still has two after reconciliation (only
the first is rewritten), so the final configuration does not have exactly
one mapper of audience type. -/
theorem claim_C5_counterexample :
    ¬ ((keycloak_admin.update_client_audience
          [⟨"1", "a", "openid-connect", "oidc-audience-mapper", []⟩,
           ⟨"2", "b", "openid-connect", "oidc-audience-mapper",
             [("included.client.audience", "x")]⟩]
          "my-audience" "audience-mapper" "9").filter isAudienceMapper).length = 1 := by
  decide

/-- Claim C5 witness: the amended idempotence theorem applied to a concrete
client with one legacy audience mapper. -/
theorem claim_C5_witness :
    keycloak_admin.update_client_audience
        (keycloak_admin.update_client_audience
          [⟨"1", "aud-mapper", "openid-connect", "oidc-audience-mapper",
            [("included.client.audience", "old")]⟩] "new-aud" "audience-mapper" "9")
        "new-aud" "audience-mapper" "9" =
      keycloak_admin.update_client_audience
        [⟨"1", "aud-mapper", "openid-connect", "oidc-audience-mapper",
          [("included.client.audience", "old")]⟩] "new-aud" "audience-mapper" "9" ∧
    ((([⟨"1", "aud-mapper", "openid-connect", "oidc-audience-mapper",
        [("included.client.audience", "old")]⟩] : List Mapper).filter
        isAudienceMapper).length ≤ 1 →
      ∃ m, ((keycloak_admin.update_client_audience
          [⟨"1", "aud-mapper", "openid-connect", "oidc-audience-mapper",
            [("included.client.audience", "old")]⟩] "new-aud" "audience-mapper" "9").filter
          isAudienceMapper) = [m] ∧
        dictGet "included.custom.audience" m.config = some "new-aud" ∧
        dictGet "included.client.audience" m.config = none ∧
        dictGet "access.token.claim" m.config = some "true" ∧
        dictGet "id.token.claim" m.config = some "true" ∧
        dictGet "introspection.token.claim" m.config = some "true") :=
  claim_C5_idempotent
    [⟨"1", "aud-mapper", "openid-connect", "oidc-audience-mapper",
      [("included.client.audience", "old")]⟩]
    "new-aud" "audience-mapper" "9" (by decide) (by decide)

/-- Claim C3: for a resolved client, `replace` mode sends exactly the given
URIs, `add` mode sends a duplicate-free list whose members are exactly the
union of existing and given URIs, and `remove` mode sends the existing
URIs that are not in the given list, in their original relative order. -/
theorem claim_C3_redirect_modes (clients : List Client) (client_id : String) (client : Client)
    (uris : List String)
    (hfind : clients.find? (fun c => c.clientId == client_id) = some client) :
    update_client_redirect_uris clients client_id uris "replace" = some (client.id, uris) ∧
    (∃ r, update_client_redirect_uris clients client_id uris "add" = some (client.id, r) ∧
      r.Nodup ∧ ∀ x, x ∈ r ↔ x ∈ client.redirectUris ∨ x ∈ uris) ∧
    (∃ r, update_client_redirect_uris clients client_id uris "remove" = some (client.id, r) ∧
      r.Sublist client.redirectUris ∧
      (∀ x, x ∈ r ↔ x ∈ client.redirectUris ∧ x ∉ uris)) := by
  refine ⟨?_, ⟨(client.redirectUris ++ uris).dedup, ?_, List.nodup_dedup _, ?_⟩,
    ⟨client.redirectUris.filter (fun uri => !uris.contains uri), ?_,
      List.filter_sublist _, ?_⟩⟩
  · unfold update_client_redirect_uris
    rw [hfind]
    rfl
  · unfold update_client_redirect_uris
    rw [hfind]
    rfl
  · intro x
    rw [List.mem_dedup, List.mem_append]
  · unfold update_client_redirect_uris
    rw [hfind]
    rfl
  · intro x
    simp [List.mem_filter]

/-- Claim C3 witness: the three modes evaluated on a concrete client. -/
theorem claim_C3_witness :
    update_client_redirect_uris [⟨"iid1", "app", ["https://a/cb", "https://b/cb"]⟩]
        "app" ["https://a/cb", "https://c/cb"] "replace" =
      some ("iid1", ["https://a/cb", "https://c/cb"]) ∧
    (∃ r, update_client_redirect_uris [⟨"iid1", "app", ["https://a/cb", "https://b/cb"]⟩]
        "app" ["https://a/cb", "https://c/cb"] "add" = some ("iid1", r) ∧
      r.Nodup ∧ ∀ x, x ∈ r ↔ x ∈ ["https://a/cb", "https://b/cb"] ∨
        x ∈ ["https://a/cb", "https://c/cb"]) ∧
    (∃ r, update_client_redirect_uris [⟨"iid1", "app", ["https://a/cb", "https://b/cb"]⟩]
        "app" ["https://a/cb", "https://c/cb"] "remove" = some ("iid1", r) ∧
      r.Sublist ["https://a/cb", "https://b/cb"] ∧
      (∀ x, x ∈ r ↔ x ∈ ["https://a/cb", "https://b/cb"] ∧
        x ∉ ["https://a/cb", "https://c/cb"])) :=
  claim_C3_redirect_modes [⟨"iid1", "app", ["https://a/cb", "https://b/cb"]⟩] "app"
    ⟨"iid1", "app", ["https://a/cb", "https://b/cb"]⟩ ["https://a/cb", "https://c/cb"] rfl

/-! ## Substring occurrence, characterised -/

theorem startsWithList_iff (p : List Char) : ∀ s : List Char,
    startsWithList p s = true ↔ ∃ t, s = p ++ t := by
  induction p with
  | nil => intro s; simp [startsWithList]
  | cons x xs ih =>
    intro s
    cases s with
    | nil =>
      simp [startsWithList]
    | cons c cs =>
      simp only [startsWithList, Bool.and_eq_true, beq_iff_eq]
      constructor
      · rintro ⟨rfl, h⟩
        obtain ⟨t, rfl⟩ := (ih cs).mp h
        exact ⟨t, rfl⟩
      · rintro ⟨t, ht⟩
        rw [List.cons_append] at ht
        injection ht with h1 h2
        exact ⟨h1.symm, (ih cs).mpr ⟨t, h2⟩⟩

theorem containsSub_iff (pat : List Char) : ∀ s : List Char,
    containsSub pat s = true ↔ ∃ a b, s = a ++ pat ++ b := by
  intro s
  induction s with
  | nil =>
    cases pat with
    | nil => simp [containsSub]
    | cons x xs => simp [containsSub]
  | cons c cs ih =>
    simp only [containsSub, Bool.or_eq_true]
    constructor
    · rintro (h | h)
      · obtain ⟨t, ht⟩ := (startsWithList_iff pat (c :: cs)).mp h
        exact ⟨[], t, by simp [ht]⟩
      · obtain ⟨a, b, rfl⟩ := ih.mp h
        exact ⟨c :: a, b, rfl⟩
    · rintro ⟨a, b, hab⟩
      cases a with
      | nil =>
        left
        exact (startsWithList_iff pat (c :: cs)).mpr ⟨b, by simpa using hab⟩
      | cons a0 as =>
        right
        simp only [List.cons_append, List.cons.injEq] at hab
        exact ih.mpr ⟨as, b, hab.2⟩

/-- Claim C4: the pattern-substitution step maps each redirect URI to the
whole replacement when the old pattern occurs in it as a literal substring
and keeps it byte-identical otherwise; `pyIn` decides exactly literal
substring occurrence; and the spec's worked example holds. -/
theorem claim_C4_pattern_substitution :
    (∀ (old_pattern new_uri : String) (uris : List String) (i : Nat),
      (replaceMatchingUris old_pattern new_uri uris)[i]? =
        (uris[i]?).map (fun uri => if pyIn old_pattern uri then new_uri else uri)) ∧
    (∀ pat u : String, pyIn pat u = true ↔ ∃ a b : List Char, u.data = a ++ pat.data ++ b) ∧
    replaceMatchingUris "old.example.com" "https://new.example.com/cb"
        ["https://old.example.com/cb", "https://other.com/x"] =
      ["https://new.example.com/cb", "https://other.com/x"] := by
  refine ⟨?_, ?_, by decide⟩
  · intro old_pattern new_uri uris i
    simp [replaceMatchingUris]
  · intro pat u
    exact containsSub_iff pat.data u.data

/-! ## Batch executors -/

theorem tally_foldl {α : Type} (ok : α → Bool) (targets : List α) : ∀ a b : Nat,
    targets.foldl (fun counts t =>
        if ok t then (counts.1 + 1, counts.2) else (counts.1, counts.2 + 1)) (a, b) =
      (a + targets.countP ok, b + targets.countP (fun t => !ok t)) := by
  induction targets with
  | nil => intro a b; simp
  | cons t ts ih =>
    intro a b
    cases h : ok t with
    | true => simp [h, ih, List.countP_cons]; omega
    | false => simp [h, ih, List.countP_cons]; omega

/-- Claim C6: both batch executors attempt every target in input order
independently — the tally is determined target-by-target, successes plus
failures equal the number of targets, and in the 3-target scenario where
only the second target fails the result is 2 succeeded, 1 failed, 3
processed. -/
theorem claim_C6_batch_executors :
    (∀ (clients : List Client) (fails : String → Bool) (client_ids uris : List String)
        (mode : String),
      batch_update_redirect_uris clients fails client_ids uris mode =
        (client_ids.countP (redirectTargetOk clients fails uris mode),
         client_ids.countP (fun t => !redirectTargetOk clients fails uris mode t)) ∧
      (batch_update_redirect_uris clients fails client_ids uris mode).1 +
        (batch_update_redirect_uris clients fails client_ids uris mode).2 =
          client_ids.length) ∧
    (∀ (users : List (String × String)) (pwFails : String → Bool) (usernames : List String),
      reset_user_passwords users pwFails usernames =
        (usernames.countP (passwordTargetOk users pwFails),
         usernames.countP (fun t => !passwordTargetOk users pwFails t)) ∧
      (reset_user_passwords users pwFails usernames).1 +
        (reset_user_passwords users pwFails usernames).2 = usernames.length) ∧
    (∀ (clients : List Client) (fails : String → Bool) (uris : List String) (mode : String)
        (t1 t2 t3 : String),
      redirectTargetOk clients fails uris mode t1 = true →
      redirectTargetOk clients fails uris mode t2 = false →
      redirectTargetOk clients fails uris mode t3 = true →
      batch_update_redirect_uris clients fails [t1, t2, t3] uris mode = (2, 1)) ∧
    (∀ (users : List (String × String)) (pwFails : String → Bool) (t1 t2 t3 : String),
      passwordTargetOk users pwFails t1 = true →
      passwordTargetOk users pwFails t2 = false →
      passwordTargetOk users pwFails t3 = true →
      reset_user_passwords users pwFails [t1, t2, t3] = (2, 1)) := by
  have hbatch : ∀ (clients : List Client) (fails : String → Bool)
      (client_ids uris : List String) (mode : String),
      batch_update_redirect_uris clients fails client_ids uris mode =
        (client_ids.countP (redirectTargetOk clients fails uris mode),
         client_ids.countP (fun t => !redirectTargetOk clients fails uris mode t)) := by
    intro clients fails client_ids uris mode
    unfold batch_update_redirect_uris
    rw [tally_foldl]
    simp
  have hreset : ∀ (users : List (String × String)) (pwFails : String → Bool)
      (usernames : List String),
      reset_user_passwords users pwFails usernames =
        (usernames.countP (passwordTargetOk users pwFails),
         usernames.countP (fun t => !passwordTargetOk users pwFails t)) := by
    intro users pwFails usernames
    unfold reset_user_passwords
    rw [tally_foldl]
    simp
  refine ⟨fun clients fails client_ids uris mode => ⟨hbatch _ _ _ _ _, ?_⟩,
    fun users pwFails usernames => ⟨hreset _ _ _, ?_⟩,
    fun clients fails uris mode t1 t2 t3 h1 h2 h3 => ?_,
    fun users pwFails t1 t2 t3 h1 h2 h3 => ?_⟩
  · rw [hbatch]
    simp [List.length_eq_countP_add_countP (redirectTargetOk clients fails uris mode)]
  · rw [hreset]
    simp [List.length_eq_countP_add_countP (passwordTargetOk users pwFails)]
  · rw [hbatch]
    simp [List.countP_cons, h1, h2, h3]
  · rw [hreset]
    simp [List.countP_cons, h1, h2, h3]

/-! ## User attribute merge lemmas -/

theorem set_attrs_not_mem (attrs : List (String × AttrValue)) :
    ∀ (cur : List (String × List String)) (k : String), k ∉ attrs.map Prod.fst →
      dictGet k (set_user_attributes_from_username cur attrs) = dictGet k cur := by
  induction attrs with
  | nil => intro cur k _; rfl
  | cons kv rest ih =>
    intro cur k hk
    simp only [List.map_cons, List.mem_cons, not_or] at hk
    have hstep : set_user_attributes_from_username cur (kv :: rest) =
        set_user_attributes_from_username (dictSet kv.1 (wrapValue kv.2) cur) rest := rfl
    rw [hstep, ih _ k hk.2, dictGet_dictSet_ne (fun he => hk.1 he)]

theorem set_attrs_mem (attrs : List (String × AttrValue)) :
    ∀ (cur : List (String × List String)) (k : String) (v : AttrValue),
      (attrs.map Prod.fst).Nodup → (k, v) ∈ attrs →
      dictGet k (set_user_attributes_from_username cur attrs) = some (wrapValue v) := by
  induction attrs with
  | nil => intro cur k v _ h; simp at h
  | cons kv rest ih =>
    intro cur k v hnodup hmem
    obtain ⟨k1, v1⟩ := kv
    have hstep : set_user_attributes_from_username cur ((k1, v1) :: rest) =
        set_user_attributes_from_username (dictSet k1 (wrapValue v1) cur) rest := rfl
    simp only [List.map_cons, List.nodup_cons] at hnodup
    rcases List.mem_cons.mp hmem with heq | hmem'
    · obtain ⟨rfl, rfl⟩ := Prod.mk.injEq .. ▸ And.intro (congrArg Prod.fst heq).symm
        (congrArg Prod.snd heq).symm
      rw [hstep, set_attrs_not_mem rest _ k hnodup.1, dictGet_dictSet_self]
    · rw [hstep]
      exact ih _ k v hnodup.2 hmem'

/-- Claim C7: the user-attribute merge is non-destructive — keys not being
set keep their current values, every key being set maps to its wrapped
value, and a user with `department` gains `classification` without losing
`department`. -/
theorem claim_C7_attribute_merge :
    (∀ (cur : List (String × List String)) (attrs : List (String × AttrValue)) (k : String),
      k ∉ attrs.map Prod.fst →
      dictGet k (set_user_attributes_from_username cur attrs) = dictGet k cur) ∧
    (∀ (cur : List (String × List String)) (attrs : List (String × AttrValue))
        (k : String) (v : AttrValue),
      (attrs.map Prod.fst).Nodup → (k, v) ∈ attrs →
      dictGet k (set_user_attributes_from_username cur attrs) = some (wrapValue v)) ∧
    set_user_attributes_from_username [("department", ["eng"])]
        [("classification", AttrValue.str "Secret")] =
      [("department", ["eng"]), ("classification", ["Secret"])] :=
  ⟨fun cur attrs k => set_attrs_not_mem attrs cur k,
   fun cur attrs k v => set_attrs_mem attrs cur k v, rfl⟩

/-! ## Find-and-replace frame conditions -/

theorem executeReplaceUpdates_fst (old_pattern new_uri : String) (fails : String → Bool) :
    ∀ l : List Client,
      (executeReplaceUpdates old_pattern new_uri fails l).map (fun r => r.1) =
        l.map Client.id := by
  intro l
  induction l with
  | nil => rfl
  | cons c cs ih => simp [executeReplaceUpdates, ih]

theorem executeReplaceUpdates_pair (old_pattern new_uri : String) (fails : String → Bool) :
    ∀ l : List Client,
      (executeReplaceUpdates old_pattern new_uri fails l).map (fun r => (r.1, r.2.1)) =
        l.map (fun c => (c.id, replaceMatchingUris old_pattern new_uri c.redirectUris)) := by
  intro l
  induction l with
  | nil => rfl
  | cons c cs ih => simp [executeReplaceUpdates, ih]

/-- Claim C8: `find_and_replace_redirect_uri` issues no update in dry-run
mode; outside dry-run it issues none unless the single confirmation answer
normalizes to `"yes"`; and when confirmed it attempts the update of every
affected client, independently of which directory calls fail. -/
theorem claim_C8_confirmation_frame :
    (∀ (clients : List Client) (old_pattern new_uri answer : String) (fails : String → Bool),
      find_and_replace_redirect_uri clients old_pattern new_uri true answer fails = []) ∧
    (∀ (clients : List Client) (old_pattern new_uri answer : String) (fails : String → Bool),
      pyLowerStr (pyStrip answer) ≠ "yes" →
      find_and_replace_redirect_uri clients old_pattern new_uri false answer fails = []) ∧
    (∀ (clients : List Client) (old_pattern new_uri answer : String) (fails : String → Bool),
      pyLowerStr (pyStrip answer) = "yes" →
      (find_and_replace_redirect_uri clients old_pattern new_uri false answer fails).map
          (fun r => r.1) =
        (clients.filter (fun c => c.redirectUris.any (fun uri => pyIn old_pattern uri))).map
          Client.id) ∧
    (∀ (clients : List Client) (old_pattern new_uri answer : String)
        (fails fails' : String → Bool),
      (find_and_replace_redirect_uri clients old_pattern new_uri false answer fails).map
          (fun r => (r.1, r.2.1)) =
        (find_and_replace_redirect_uri clients old_pattern new_uri false answer fails').map
          (fun r => (r.1, r.2.1))) := by
  refine ⟨?_, ?_, ?_, ?_⟩
  · intro clients old_pattern new_uri answer fails
    unfold find_and_replace_redirect_uri
    by_cases h : (clients.filter
        (fun c => c.redirectUris.any (fun uri => pyIn old_pattern uri))).isEmpty <;> simp [h]
  · intro clients old_pattern new_uri answer fails hno
    unfold find_and_replace_redirect_uri
    have : (pyLowerStr (pyStrip answer) == "yes") = false := by simpa using hno
    by_cases h : (clients.filter
        (fun c => c.redirectUris.any (fun uri => pyIn old_pattern uri))).isEmpty <;>
      simp [h, this]
  · intro clients old_pattern new_uri answer fails hyes
    unfold find_and_replace_redirect_uri
    have hbeq : (pyLowerStr (pyStrip answer) == "yes") = true := by simpa using hyes
    by_cases h : (clients.filter
        (fun c => c.redirectUris.any (fun uri => pyIn old_pattern uri))).isEmpty
    · have : clients.filter
          (fun c => c.redirectUris.any (fun uri => pyIn old_pattern uri)) = [] := by
        simpa [List.isEmpty_iff] using h
      simp [h, this]
    · simp [h, hbeq, executeReplaceUpdates_fst]
  · intro clients old_pattern new_uri answer fails fails'
    unfold find_and_replace_redirect_uri
    by_cases h : (clients.filter
        (fun c => c.redirectUris.any (fun uri => pyIn old_pattern uri))).isEmpty
    · simp [h]
    · by_cases hy : (pyLowerStr (pyStrip answer) == "yes") = true
      · simp [h, hy, executeReplaceUpdates_pair]
      · simp [h, hy]

/-! ## Characterisation of the username regex -/

/-- Conditions on the two trailing capture groups of the username pattern:
2–3 letters for the nationality code, 2 or more for the need-to-know code,
case-insensitive. -/
def TailOK (g2 g3 : List Char) : Prop :=
  (∀ c ∈ g2, c.isAlpha = true) ∧ (g2.length = 2 ∨ g2.length = 3) ∧
  (∀ c ∈ g3, c.isAlpha = true) ∧ 2 ≤ g3.length

theorem matchTail_cons (a b c d : Char) (rest : List Char) :
    matchTail (a :: b :: c :: d :: rest) =
      (if a.isAlpha && b.isAlpha && c.isAlpha && d == '-' &&
          rest.all Char.isAlpha && decide (2 ≤ rest.length) then
        some ([a, b, c], rest)
      else if a.isAlpha && b.isAlpha && c == '-' &&
          (d :: rest).all Char.isAlpha && decide (2 ≤ (d :: rest).length) then
        some ([a, b], d :: rest)
      else none) := rfl

theorem matchTail_some_iff : ∀ cs g2 g3 : List Char,
    matchTail cs = some (g2, g3) ↔ (cs = g2 ++ '-' :: g3 ∧ TailOK g2 g3) := by
  have hshort : ∀ (cs g2 g3 : List Char), cs.length ≤ 3 →
      ¬ (cs = g2 ++ '-' :: g3 ∧ TailOK g2 g3) := by
    rintro cs g2 g3 hlen ⟨hcs, -, hl2, -, hl3⟩
    have := congrArg List.length hcs
    simp [List.length_append] at this
    omega
  intro cs g2 g3
  rcases cs with _ | ⟨a, _ | ⟨b, _ | ⟨c, _ | ⟨d, rest⟩⟩⟩⟩
  case nil =>
    constructor
    · intro h; simp [matchTail] at h
    · intro h; exact absurd h (hshort _ _ _ (by simp))
  case cons.nil =>
    constructor
    · intro h; simp [matchTail] at h
    · intro h; exact absurd h (hshort _ _ _ (by simp))
  case cons.cons.nil =>
    constructor
    · intro h; simp [matchTail] at h
    · intro h; exact absurd h (hshort _ _ _ (by simp))
  case cons.cons.cons.nil =>
    constructor
    · intro h; simp [matchTail] at h
    · intro h; exact absurd h (hshort _ _ _ (by simp))
  case cons.cons.cons.cons =>
    constructor
    · intro h
      rw [matchTail_cons] at h
      by_cases h1 : (a.isAlpha && b.isAlpha && c.isAlpha && (d == '-') &&
          rest.all Char.isAlpha && decide (2 ≤ rest.length)) = true
      · rw [if_pos h1] at h
        simp only [Option.some.injEq, Prod.mk.injEq] at h
        obtain ⟨rfl, rfl⟩ := h
        simp only [Bool.and_eq_true, beq_iff_eq, List.all_eq_true,
          decide_eq_true_eq] at h1
        obtain ⟨⟨⟨⟨⟨ha, hb⟩, hc⟩, hd⟩, hall⟩, hlen⟩ := h1
        subst hd
        refine ⟨rfl, ?_, Or.inr rfl, hall, hlen⟩
        intro x hx
        simp only [List.mem_cons, List.not_mem_nil, or_false] at hx
        rcases hx with rfl | rfl | rfl
        · exact ha
        · exact hb
        · exact hc
      · rw [if_neg h1] at h
        by_cases h2 : (a.isAlpha && b.isAlpha && (c == '-') &&
            (d :: rest).all Char.isAlpha && decide (2 ≤ (d :: rest).length)) = true
        · rw [if_pos h2] at h
          simp only [Option.some.injEq, Prod.mk.injEq] at h
          obtain ⟨rfl, rfl⟩ := h
          simp only [Bool.and_eq_true, beq_iff_eq, List.all_eq_true,
            decide_eq_true_eq] at h2
          obtain ⟨⟨⟨⟨ha, hb⟩, hc⟩, hall⟩, hlen⟩ := h2
          subst hc
          refine ⟨rfl, ?_, Or.inl rfl, hall, hlen⟩
          intro x hx
          simp only [List.mem_cons, List.not_mem_nil, or_false] at hx
          rcases hx with rfl | rfl
          · exact ha
          · exact hb
        · rw [if_neg h2] at h
          exact absurd h (by simp)
    · rintro ⟨hcs, ha2, hl2, ha3, hl3⟩
      rw [matchTail_cons]
      rcases hl2 with hl2 | hl2
      · obtain ⟨x, y, rfl⟩ := List.length_eq_two.mp hl2
        simp only [List.cons_append, List.nil_append, List.cons.injEq] at hcs
        obtain ⟨rfl, rfl, rfl, rfl⟩ := hcs
        have hdash : ('-' : Char).isAlpha = false := by decide
        have hc2 : (a.isAlpha && b.isAlpha && (('-' : Char) == '-') &&
            (d :: rest).all Char.isAlpha && decide (2 ≤ (d :: rest).length)) = true := by
          simp only [Bool.and_eq_true, beq_self_eq_true, List.all_eq_true,
            decide_eq_true_eq]
          exact ⟨⟨⟨⟨ha2 a (by simp), ha2 b (by simp)⟩, trivial⟩, ha3⟩, hl3⟩
        rw [if_neg (by simp [hdash]), if_pos hc2]
      · obtain ⟨x, y, z, rfl⟩ := List.length_eq_three.mp hl2
        simp only [List.cons_append, List.nil_append, List.cons.injEq] at hcs
        obtain ⟨rfl, rfl, rfl, rfl, rfl⟩ := hcs
        have hc1 : (a.isAlpha && b.isAlpha && c.isAlpha && (('-' : Char) == '-') &&
            rest.all Char.isAlpha && decide (2 ≤ rest.length)) = true := by
          simp only [Bool.and_eq_true, beq_self_eq_true, List.all_eq_true,
            decide_eq_true_eq]
          exact ⟨⟨⟨⟨⟨ha2 a (by simp), ha2 b (by simp)⟩, ha2 c (by simp)⟩, trivial⟩, ha3⟩, hl3⟩
        rw [if_pos hc1]

theorem count_dash_tail (g2 g3 : List Char) (h2 : ∀ c ∈ g2, c.isAlpha = true)
    (h3 : ∀ c ∈ g3, c.isAlpha = true) : (g2 ++ '-' :: g3).count '-' = 1 := by
  have hz2 : g2.count '-' = 0 := List.count_eq_zero.mpr (fun hmem =>
    absurd (h2 '-' hmem) (by decide))
  have hz3 : g3.count '-' = 0 := List.count_eq_zero.mpr (fun hmem =>
    absurd (h3 '-' hmem) (by decide))
  simp [List.count_append, List.count_cons_self, hz2, hz3]

theorem group1Search_nil (acc : List Char) : group1Search acc [] = none := rfl

theorem group1Search_cons (acc : List Char) (c : Char) (rest : List Char) :
    group1Search acc (c :: rest) =
      (if g1Char c then
        match group1Search (c :: acc) rest with
        | some result => some result
        | none =>
          if c == '-' && !acc.isEmpty then
            match matchTail rest with
            | some (g2, g3) => some (acc.reverse, g2, g3)
            | none => none
          else none
      else none) := rfl

theorem group1Search_some_iff : ∀ (cs acc g1 g2 g3 : List Char),
    group1Search acc cs = some (g1, g2, g3) ↔
      ∃ ext : List Char, g1 = acc.reverse ++ ext ∧
        cs = ext ++ '-' :: (g2 ++ '-' :: g3) ∧
        (∀ c ∈ ext, g1Char c = true) ∧ (acc = [] → ext ≠ []) ∧ TailOK g2 g3 := by
  intro cs
  induction cs with
  | nil =>
    intro acc g1 g2 g3
    rw [group1Search_nil]
    constructor
    · intro h; exact absurd h (by simp)
    · rintro ⟨ext, -, hcs, -⟩
      exact absurd hcs (by cases ext <;> simp)
  | cons c rest ih =>
    intro acc g1 g2 g3
    rw [group1Search_cons]
    by_cases hg : g1Char c = true
    case neg =>
      rw [if_neg hg]
      constructor
      · intro h; exact absurd h (by simp)
      · rintro ⟨ext, hg1, hcs, hext, hne, htail⟩
        cases ext with
        | nil =>
          simp only [List.nil_append] at hcs
          injection hcs with hcd hrest
          exact absurd (show g1Char c = true by simp [hcd, g1Char, wordChar]) hg
        | cons e ext' =>
          simp only [List.cons_append] at hcs
          injection hcs with hce hrest
          exact absurd (show g1Char c = true by rw [hce]; exact hext e (by simp)) hg
    case pos =>
      rw [if_pos hg]
      cases hrec : group1Search (c :: acc) rest with
      | some r =>
        dsimp only
        constructor
        · intro h
          simp only [Option.some.injEq] at h
          subst h
          obtain ⟨ext', hg1', hrest, hext', -, htail'⟩ := (ih (c :: acc) g1 g2 g3).mp hrec
          refine ⟨c :: ext', ?_, by simp [hrest], ?_, fun _ => by simp, htail'⟩
          · rw [hg1']
            simp [List.reverse_cons, List.append_assoc]
          · intro x hx
            rcases List.mem_cons.mp hx with rfl | hx'
            · exact hg
            · exact hext' x hx'
        · rintro ⟨ext, hg1, hcs, hext, hne, htail⟩
          cases ext with
          | cons e ext' =>
            simp only [List.cons_append, List.cons.injEq] at hcs
            obtain ⟨hce, hrest⟩ := hcs
            have hsome : group1Search (c :: acc) rest = some (g1, g2, g3) :=
              (ih (c :: acc) g1 g2 g3).mpr ⟨ext',
                by rw [hg1, hce]; simp [List.reverse_cons, List.append_assoc], hrest,
                fun x hx => hext x (List.mem_cons_of_mem _ hx),
                fun habs => absurd habs (by simp), htail⟩
            rw [hrec] at hsome
            exact hsome
          | nil =>
            simp only [List.nil_append, List.cons.injEq] at hcs
            obtain ⟨-, hrest⟩ := hcs
            obtain ⟨h1, h2, h3⟩ := r
            obtain ⟨ext2, -, hrest2, -, -, htail2⟩ := (ih (c :: acc) h1 h2 h3).mp hrec
            exfalso
            have hcount1 : rest.count '-' = 1 := by
              rw [hrest]
              exact count_dash_tail g2 g3 htail.1 htail.2.2.1
            have hcount2 : 2 ≤ rest.count '-' := by
              rw [hrest2]
              rw [List.count_append, List.count_cons_self,
                count_dash_tail h2 h3 htail2.1 htail2.2.2.1]
              omega
            omega
      | none =>
        dsimp only
        have hmprec : ∀ (e : Char) (ext' : List Char), c = e →
            rest = ext' ++ '-' :: (g2 ++ '-' :: g3) →
            g1 = acc.reverse ++ c :: ext' →
            (∀ x ∈ ext', g1Char x = true) → TailOK g2 g3 → False := by
          intro e ext' hce hrest hg1 hext htail
          have hsome : group1Search (c :: acc) rest = some (g1, g2, g3) :=
            (ih (c :: acc) g1 g2 g3).mpr ⟨ext',
              by rw [hg1]; simp [List.reverse_cons, List.append_assoc], hrest,
              hext, fun habs => absurd habs (by simp), htail⟩
          rw [hrec] at hsome
          exact absurd hsome (by simp)
        by_cases hc : (c == '-' && !acc.isEmpty) = true
        case pos =>
          rw [if_pos hc]
          simp only [Bool.and_eq_true, beq_iff_eq, Bool.not_eq_true',
            List.isEmpty_eq_false] at hc
          obtain ⟨hcd, haccne⟩ := hc
          cases hmt : matchTail rest with
          | some p =>
            obtain ⟨m2, m3⟩ := p
            dsimp only
            obtain ⟨hrest, htailm⟩ := (matchTail_some_iff rest m2 m3).mp hmt
            constructor
            · intro h
              simp only [Option.some.injEq, Prod.mk.injEq] at h
              obtain ⟨hga, hg2, hg3⟩ := h
              subst hga
              refine ⟨[], by simp, ?_, by simp, fun habs => absurd habs haccne, ?_⟩
              · rw [← hg2, ← hg3]
                simp [hcd, hrest]
              · rw [← hg2, ← hg3]
                exact htailm
            · rintro ⟨ext, hg1, hcs, hext, hne, htail⟩
              cases ext with
              | nil =>
                simp only [List.nil_append, List.cons.injEq] at hcs
                obtain ⟨-, hrest'⟩ := hcs
                have hsame := (matchTail_some_iff rest g2 g3).mpr ⟨hrest', htail⟩
                rw [hmt] at hsame
                simp only [Option.some.injEq, Prod.mk.injEq] at hsame
                obtain ⟨hm2, hm3⟩ := hsame
                rw [hm2, hm3]
                simp [hg1]
              | cons e ext' =>
                simp only [List.cons_append, List.cons.injEq] at hcs
                obtain ⟨hce, hrest'⟩ := hcs
                exact absurd (hmprec e ext' hce hrest'
                  (by rw [hg1, hce])
                  (fun x hx => hext x (List.mem_cons_of_mem _ hx)) htail) not_false
          | none =>
            dsimp only
            constructor
            · intro h; exact absurd h (by simp)
            · rintro ⟨ext, hg1, hcs, hext, hne, htail⟩
              cases ext with
              | nil =>
                simp only [List.nil_append, List.cons.injEq] at hcs
                obtain ⟨-, hrest'⟩ := hcs
                have hsame := (matchTail_some_iff rest g2 g3).mpr ⟨hrest', htail⟩
                rw [hmt] at hsame
                exact absurd hsame (by simp)
              | cons e ext' =>
                simp only [List.cons_append, List.cons.injEq] at hcs
                obtain ⟨hce, hrest'⟩ := hcs
                exact absurd (hmprec e ext' hce hrest'
                  (by rw [hg1, hce])
                  (fun x hx => hext x (List.mem_cons_of_mem _ hx)) htail) not_false
        case neg =>
          rw [if_neg hc]
          constructor
          · intro h; exact absurd h (by simp)
          · rintro ⟨ext, hg1, hcs, hext, hne, htail⟩
            cases ext with
            | nil =>
              simp only [List.nil_append, List.cons.injEq] at hcs
              obtain ⟨hcd, hrest'⟩ := hcs
              have haccne : acc ≠ [] := fun habs => (hne habs) rfl
              exact absurd (show (c == '-' && !acc.isEmpty) = true by
                simp [hcd, haccne]) hc
            | cons e ext' =>
              simp only [List.cons_append, List.cons.injEq] at hcs
              obtain ⟨hce, hrest'⟩ := hcs
              exact absurd (hmprec e ext' hce hrest'
                (by rw [hg1, hce])
                (fun x hx => hext x (List.mem_cons_of_mem _ hx)) htail) not_false

/-- The spec's grammar, stated declaratively: the username splits as a
non-empty classification token over word characters and hyphens, then a
hyphen, then a 2–3 letter nationality code, then a hyphen, then a 2+
letter need-to-know code — the two codes being letter-only makes them the
last two hyphen-delimited segments. -/
def SpecAccepts (u g1 g2 g3 : List Char) : Prop :=
  u = g1 ++ '-' :: (g2 ++ '-' :: g3) ∧ g1 ≠ [] ∧ (∀ c ∈ g1, g1Char c = true) ∧
  (∀ c ∈ g2, c.isAlpha = true) ∧ 2 ≤ g2.length ∧ g2.length ≤ 3 ∧
  (∀ c ∈ g3, c.isAlpha = true) ∧ 2 ≤ g3.length

theorem group1Search_spec (u g1 g2 g3 : List Char) :
    group1Search [] u = some (g1, g2, g3) ↔ SpecAccepts u g1 g2 g3 := by
  rw [group1Search_some_iff]
  constructor
  · rintro ⟨ext, hg1, hcs, hext, hne, ⟨ha2, hl2, ha3, hl3⟩⟩
    have hge : g1 = ext := by simpa using hg1
    subst hge
    exact ⟨hcs, hne rfl, hext, ha2, by omega, by omega, ha3, hl3⟩
  · rintro ⟨hcs, hne, hext, ha2, hl2a, hl2b, ha3, hl3⟩
    exact ⟨g1, by simp, hcs, hext, fun _ => hne, ha2, by omega, ha3, hl3⟩

theorem parse_username_attributes_some_iff (s : String) (r : UserAttributes) :
    parse_username_attributes s = some r ↔
      ∃ g1 g2 g3, SpecAccepts s.data g1 g2 g3 ∧
        r = ⟨normalizeClassification g1, String.mk (g2.map Char.toUpper),
             String.mk (g3.map Char.toUpper)⟩ := by
  unfold parse_username_attributes
  cases hs : group1Search [] s.data with
  | none =>
    constructor
    · intro h; exact absurd h (by simp)
    · rintro ⟨g1, g2, g3, hspec, -⟩
      have := (group1Search_spec s.data g1 g2 g3).mpr hspec
      rw [hs] at this
      exact absurd this (by simp)
  | some t =>
    obtain ⟨g1, g2, g3⟩ := t
    dsimp only
    constructor
    · intro h
      refine ⟨g1, g2, g3, (group1Search_spec s.data g1 g2 g3).mp hs, ?_⟩
      simpa using h.symm
    · rintro ⟨g1', g2', g3', hspec, rfl⟩
      have hsame := (group1Search_spec s.data g1' g2' g3').mpr hspec
      rw [hs] at hsame
      simp only [Option.some.injEq, Prod.mk.injEq] at hsame
      obtain ⟨h1, h2, h3⟩ := hsame
      rw [h1, h2, h3]

/-- Claim C2: `parse_username_attributes` accepts exactly the usernames of
the form classification-token, hyphen, 2–3 letter nationality code,
hyphen, 2+ letter need-to-know code (the codes are the last two
hyphen-delimited segments, everything before them the non-empty
classification token); exactly-two-segment usernames never match; on a
match the codes are upper-cased and the classification goes through the
fixed table with a title-case fallback; and the spec's three examples
hold. -/
theorem claim_C2_username_grammar :
    (∀ s : String, (∃ r, parse_username_attributes s = some r) ↔
      ∃ g1 g2 g3, SpecAccepts s.data g1 g2 g3) ∧
    (∀ (s : String) (g1 g2 g3 : List Char), SpecAccepts s.data g1 g2 g3 →
      parse_username_attributes s =
        some ⟨normalizeClassification g1, String.mk (g2.map Char.toUpper),
              String.mk (g3.map Char.toUpper)⟩) ∧
    (∀ a b : List Char, '-' ∉ a → '-' ∉ b →
      parse_username_attributes (String.mk (a ++ '-' :: b)) = none) ∧
    parse_username_attributes "secret-usa-aaa" = some ⟨"Secret", "USA", "AAA"⟩ ∧
    parse_username_attributes "top-secret-gbr-bbb" = some ⟨"Top Secret", "GBR", "BBB"⟩ ∧
    parse_username_attributes "alice" = none := by
  refine ⟨?_, ?_, ?_, by decide, by decide, by decide⟩
  · intro s
    constructor
    · rintro ⟨r, hr⟩
      obtain ⟨g1, g2, g3, hspec, -⟩ := (parse_username_attributes_some_iff s r).mp hr
      exact ⟨g1, g2, g3, hspec⟩
    · rintro ⟨g1, g2, g3, hspec⟩
      exact ⟨_, (parse_username_attributes_some_iff s _).mpr ⟨g1, g2, g3, hspec, rfl⟩⟩
  · intro s g1 g2 g3 hspec
    exact (parse_username_attributes_some_iff s _).mpr ⟨g1, g2, g3, hspec, rfl⟩
  · intro a b ha hb
    cases hp : parse_username_attributes (String.mk (a ++ '-' :: b)) with
    | none => rfl
    | some r =>
      exfalso
      obtain ⟨g1, g2, g3, ⟨hcs, -, -, ha2, -, -, ha3, -⟩, -⟩ :=
        (parse_username_attributes_some_iff _ r).mp hp
      rw [show (String.mk (a ++ '-' :: b)).data = a ++ '-' :: b from rfl] at hcs
      have hc1 : (a ++ '-' :: b).count '-' = 1 := by
        have hza : a.count '-' = 0 := List.count_eq_zero.mpr ha
        have hzb : b.count '-' = 0 := List.count_eq_zero.mpr hb
        simp [List.count_append, List.count_cons_self, hza, hzb]
      have hc2 : 2 ≤ (a ++ '-' :: b).count '-' := by
        rw [hcs, List.count_append, List.count_cons_self,
          count_dash_tail g2 g3 ha2 ha3]
        omega
      omega

/-- Claim C10: the classification token is not restricted to alphabetic
words — digits and underscores (any `\w` character) are accepted, so
`123-usa-abc` parses with classification `123` and `x_y-usa-abc` parses
with classification `X_Y`. -/
theorem claim_C10_word_class :
    parse_username_attributes "123-usa-abc" = some ⟨"123", "USA", "ABC"⟩ ∧
    parse_username_attributes "x_y-usa-abc" = some ⟨"X_Y", "USA", "ABC"⟩ := by
  constructor <;> decide
